import Mathlib

/-!
Verification development for the Genesim simulation core
(`backend/app/integrators.py`, `backend/app/kinetics.py`,
`backend/app/models.py`; the legacy engine lives in
`backend/app/simulate.py`).

Real numbers model Python floats; `Real.rpow` models the float power
operator applied to the Hill exponents.  State vectors, propensity
arrays and trajectory matrices are modelled as `List ℝ`.  Python dicts
that are only ever read through `.get` are modelled as association
lists with last-insertion-wins lookup, and `numpy`'s strided reads
`y[o : o + 2n : 2]` are modelled by direct indexing `y[o + 2j]`.
-/

namespace Genesim

/-- `TranscriptSpec` from `integrators.py`: specification of a single
transcript (operon).  `rbs_strengths` is a per-cistron array. -/
structure TranscriptSpec where
  transcript_id : String
  promoter_strength : ℝ
  leak : ℝ
  activator_name : Option String
  actK : ℝ
  actN : ℝ
  inhibitor_name : Option String
  repK : ℝ
  repN : ℝ
  inducer_name : Option String
  indK : ℝ
  indN : ℝ
  cistron_ids : List String
  protein_labels : List String
  rbs_strengths : List ℝ

/-- `InducerConfig` from `models.py`: a named, time-parameterized
exogenous signal.  The `function` field is one of `"constant"`,
`"sin"`, `"pulse"`, `"ramp"`, `"square"`, kept as a string as in the
pydantic model. -/
structure InducerConfig where
  name : String
  function : String
  value : ℝ
  baseline : ℝ
  amplitude : ℝ
  period : ℝ
  duty_cycle : ℝ
  slope : ℝ
  delay : ℝ

/-- Python truthiness of an `Optional[str]`: `None` and the empty
string are falsy (`if spec.activator_name:` in the source). -/
def truthy : Option String → Bool
  | none => false
  | some s => s != ""

/-- `norm_label` from `kinetics.py`: keep only alphanumerics,
lowercased. -/
def norm_label (s : String) : String :=
  String.mk ((s.data.filter Char.isAlphanum).map Char.toLower)

/-- `canonical_inhibitor_key` from `kinetics.py`: normalize and apply
the fixed synonym table. -/
def canonical_inhibitor_key (s : String) : String :=
  let n := norm_label s
  let aliases : List (String × String) :=
    [("laci", "laci"), ("lacrepressor", "laci"),
     ("tetr", "tetr"), ("tetrepressor", "tetr"),
     ("ci", "ci"), ("lambdaci", "ci"), ("lambdacirepressor", "ci"),
     ("lambdac1", "ci")]
  ((List.lookup n aliases).getD n)

noncomputable section

/-- `hill_activation` from `kinetics.py`, with the locals
`An = activator ** n`, `Kn = K ** n`, `hill = An / (Kn + An)` inlined.
`x ^ n` is `Real.rpow`, modelling the Python float power. -/
def hill_activation (activator K n leak : ℝ) : ℝ :=
  if K ≤ 0 then leak
  else leak + (1 - leak) * (activator ^ n / (K ^ n + activator ^ n))

/-- `hill_repression` from `kinetics.py`, with the local
`ratio = inhibitor / K` inlined. -/
def hill_repression (inhibitor K n : ℝ) : ℝ :=
  if K ≤ 0 then 1
  else 1 / (1 + (inhibitor / K) ^ n)

/-- Python float modulo with a positive modulus: `a % p = a - p * ⌊a / p⌋`. -/
def fmod (a p : ℝ) : ℝ := a - p * ⌊a / p⌋

/-- `compute_inducer_concentration` from `kinetics.py`. -/
def compute_inducer_concentration (config : InducerConfig) (t : ℝ) : ℝ :=
  let func := config.function
  let delay := config.delay
  let baseline := config.baseline
  if t < delay then (if func != "constant" then baseline else 0)
  else
    let t_eff := t - delay
    if func = "constant" then config.value
    else if func = "ramp" then max 0 (baseline + config.slope * t_eff)
    else
      let amplitude := config.amplitude
      let period := config.period
      let duty_cycle := config.duty_cycle
      let t_norm := fmod t_eff period / period
      if func = "sin" then
        baseline + amplitude * (0.5 + 0.5 * Real.sin (2 * Real.pi * t_norm))
      else if func = "square" then
        (if t_norm < duty_cycle then baseline + amplitude else baseline)
      else if func = "pulse" then
        (if t_eff < duty_cycle * period then baseline + amplitude else baseline)
      else config.value

end

/-- The `(canonical protein label, state-vector slot)` pairs collected by
`_build_protein_index` in `integrators.py`, starting at offset `base`:
slot `base + 2*j + 1` for cistron `j`, `base` advancing by `2*n` per
transcript. -/
def proteinEntriesFrom : ℕ → List TranscriptSpec → List (String × ℕ)
  | _, [] => []
  | base, s :: rest =>
      ((List.range s.cistron_ids.length).map
        (fun j => (canonical_inhibitor_key (s.protein_labels.getD j ""), base + 2 * j + 1)))
      ++ proteinEntriesFrom (base + 2 * s.cistron_ids.length) rest

/-- `_build_protein_index` from `integrators.py`, viewed through dict
lookup: `get key` returns the list of slots appended under `key` by
`setdefault`, and `none` exactly when no protein label canonicalizes to
`key`. -/
def _build_protein_index (specs : List TranscriptSpec) (key : String) : Option (List ℕ) :=
  let idxs := (proteinEntriesFrom 0 specs).filterMap
    (fun e => if e.1 = key then some e.2 else none)
  if idxs.isEmpty then none else some idxs

/-- Total gene (cistron) count of a spec list. -/
def totalGenes (specs : List TranscriptSpec) : ℕ :=
  (specs.map (fun s => s.cistron_ids.length)).sum

/-- Total packed state dimension allocated by `_init_state`:
`sum(2 * len(s.cistron_ids) for s in specs)`. -/
def totalDim (specs : List TranscriptSpec) : ℕ :=
  (specs.map (fun s => 2 * s.cistron_ids.length)).sum

/-- The validation error message raised by `_init_state` on an
initial-condition length mismatch. -/
def initErrMsg (total lm lp : ℕ) : String :=
  "Expected m0_by_gene/p0_by_gene length " ++ toString total ++
    ", got " ++ toString lm ++ "/" ++ toString lp

/-- Interleave per-gene mRNA and protein values:
`y[off + 2*j] = m0[g]; y[off + 2*j + 1] = p0[g]` with `g` running over
genes in spec order, which flattens to alternating entries. -/
def interleave : List ℝ → List ℝ → List ℝ
  | m :: ms, p :: ps => m :: p :: interleave ms ps
  | _, _ => []

/-- `_init_state` from `integrators.py`: validates the per-gene
initial-condition lengths, then fills the interleaved per-gene state
vector.  The Python `ValueError` is an `Except.error`. -/
def _init_state (specs : List TranscriptSpec) (m0_by_gene p0_by_gene : List ℝ) :
    Except String (List ℝ) :=
  let total_genes := totalGenes specs
  if m0_by_gene.length ≠ total_genes ∨ p0_by_gene.length ≠ total_genes then
    Except.error (initErrMsg total_genes m0_by_gene.length p0_by_gene.length)
  else
    Except.ok (interleave m0_by_gene p0_by_gene)

noncomputable section

/-- Dict `.get(name, 0.0)` on an association list built by repeated
insertion (last insertion wins). -/
def dget (l : List (String × ℝ)) (k : String) : ℝ :=
  (List.lookup k l.reverse).getD 0

/-- Summed regulator concentration:
`float(np.sum(y[idxs])) if idxs is not None else 0.0`, with `idxs` the
protein-index lookup of the canonicalized name. -/
def regConc (pidx : String → Option (List ℕ)) (y : List ℝ) (name : String) : ℝ :=
  match pidx (canonical_inhibitor_key name) with
  | some idxs => (idxs.map (fun i => y.getD i 0)).sum
  | none => 0

/-- The composite Hill-modulated transcription rate `alpha_m` (also
`a_tx`) computed identically in `_rhs_transcripts` and in the loop of
`gillespie_integrate`: base rate, then optional inducer, activator and
repressor factors. -/
def transcriptionRate (pidx : String → Option (List ℕ)) (alpha_m_base : ℝ)
    (ind : List (String × ℝ)) (y : List ℝ) (spec : TranscriptSpec) : ℝ :=
  let a1 := alpha_m_base * spec.promoter_strength
  let a2 :=
    if truthy spec.inducer_name && !ind.isEmpty then
      a1 * hill_activation (dget ind (spec.inducer_name.getD ""))
            spec.indK spec.indN spec.leak
    else a1
  let f_act :=
    if truthy spec.activator_name then
      hill_activation (regConc pidx y (spec.activator_name.getD ""))
        spec.actK spec.actN spec.leak
    else 1
  let f_rep :=
    if truthy spec.inhibitor_name then
      hill_repression (regConc pidx y (spec.inhibitor_name.getD ""))
        spec.repK spec.repN
    else 1
  a2 * f_act * f_rep

/-- The transcription rate computed in the loop of
`gillespie_final_state`: base rate, then activator and repressor
factors only — that function has no inducer handling at all. -/
def transcriptionRateFinal (pidx : String → Option (List ℕ)) (alpha_m_base : ℝ)
    (y : List ℝ) (spec : TranscriptSpec) : ℝ :=
  let a1 := alpha_m_base * spec.promoter_strength
  let f_act :=
    if truthy spec.activator_name then
      hill_activation (regConc pidx y (spec.activator_name.getD ""))
        spec.actK spec.actN spec.leak
    else 1
  let f_rep :=
    if truthy spec.inhibitor_name then
      hill_repression (regConc pidx y (spec.inhibitor_name.getD ""))
        spec.repK spec.repN
    else 1
  a1 * f_act * f_rep

/-- The per-transcript block of `_rhs_transcripts`, reading the strided
slices `m = y[o : o + 2n : 2]`, `p = y[o + 1 : o + 2n : 2]` by direct
indexing: `dm_j = alpha_m - delta_m * y[o + 2j]` and
`dp_j = alpha_p_base * rbs_j * y[o + 2j] - delta_p * y[o + 2j + 1]`. -/
def rhsBlock (y : List ℝ) (alpha_m alpha_p_base delta_m delta_p : ℝ)
    (spec : TranscriptSpec) (offset : ℕ) : List ℝ :=
  let n := spec.cistron_ids.length
  interleave
    ((List.range n).map (fun j => alpha_m - delta_m * y.getD (offset + 2 * j) 0))
    ((List.range n).map (fun j =>
      alpha_p_base * spec.rbs_strengths.getD j 0 * y.getD (offset + 2 * j) 0
        - delta_p * y.getD (offset + 2 * j + 1) 0))

/-- The spec loop of `_rhs_transcripts`: each transcript writes its
`2*n` derivative slots starting at its offset; slots of
`dy = np.zeros_like(y)` beyond the last transcript stay `0`. -/
def rhsGo (y : List ℝ) (pidx : String → Option (List ℕ))
    (alpha_m_base alpha_p_base delta_m delta_p : ℝ) (ind : List (String × ℝ)) :
    List TranscriptSpec → ℕ → List ℝ
  | [], offset => (y.drop offset).map (fun _ => (0 : ℝ))
  | spec :: rest, offset =>
      rhsBlock y (transcriptionRate pidx alpha_m_base ind y spec)
          alpha_p_base delta_m delta_p spec offset
        ++ rhsGo y pidx alpha_m_base alpha_p_base delta_m delta_p ind rest
            (offset + 2 * spec.cistron_ids.length)

/-- `_rhs_transcripts` from `integrators.py`: `dy/dt` for the packed
per-gene system. -/
def _rhs_transcripts (y : List ℝ) (specs : List TranscriptSpec)
    (pidx : String → Option (List ℕ))
    (alpha_m_base alpha_p_base delta_m delta_p : ℝ)
    (ind : List (String × ℝ)) : List ℝ :=
  rhsGo y pidx alpha_m_base alpha_p_base delta_m delta_p ind specs 0

/-- `get_inducer_concentrations` in `rk4_integrate` (and the dict built
at the top of each `gillespie_integrate` iteration): name-keyed current
concentrations of every configured inducer. -/
def inducerConcsAt (cfgs : List InducerConfig) (t : ℝ) : List (String × ℝ) :=
  cfgs.map (fun c => (c.name, compute_inducer_concentration c t))

/-- `steps = int(np.floor(T / dt)) + 1`. -/
def stepsOf (T dt : ℝ) : ℕ := (⌊T / dt⌋).toNat + 1

/-- `np.linspace(0.0, dt * (steps - 1), steps)`: the uniform grid
`t_k = k * dt`. -/
def tgridOf (T dt : ℝ) : List ℝ :=
  (List.range (stepsOf T dt)).map (fun k => (k : ℝ) * dt)

/-- One iteration of the RK4 loop in `rk4_integrate`: the four stages
(with inducer concentrations recomputed at `t`, `t + dt/2` — reused for
stages 2 and 3 — and `t + dt`), the weighted update, then the
component-wise clamp `np.maximum(y, 0.0)`. -/
def rk4Step (specs : List TranscriptSpec) (pidx : String → Option (List ℕ))
    (alpha_m_base alpha_p_base delta_m delta_p : ℝ) (cfgs : List InducerConfig)
    (dt : ℝ) (tcur : ℝ) (y : List ℝ) : List ℝ :=
  let rhs := fun (yv : List ℝ) (ind : List (String × ℝ)) =>
    _rhs_transcripts yv specs pidx alpha_m_base alpha_p_base delta_m delta_p ind
  let ind := inducerConcsAt cfgs tcur
  let k1 := rhs y ind
  let ind_mid := inducerConcsAt cfgs (tcur + 0.5 * dt)
  let k2 := rhs (List.zipWith (fun a b => a + 0.5 * dt * b) y k1) ind_mid
  let k3 := rhs (List.zipWith (fun a b => a + 0.5 * dt * b) y k2) ind_mid
  let ind_end := inducerConcsAt cfgs (tcur + dt)
  let k4 := rhs (List.zipWith (fun a b => a + dt * b) y k3) ind_end
  let incr := List.zipWith (fun a b => a + b)
    (List.zipWith (fun a b => a + b) k1 (k2.map (fun v => 2.0 * v)))
    (List.zipWith (fun a b => a + b) (k3.map (fun v => 2.0 * v)) k4)
  let ynext := List.zipWith (fun a b => a + (dt / 6.0) * b) y incr
  ynext.map (fun v => max v 0)

/-- Rows `Y[1], …, Y[steps-1]` of `rk4_integrate`: `i` steps already
completed, `remaining` rows still to emit; step `k = i + 1` uses
`current_t = t[k - 1] = i * dt`. -/
def rk4Rows (specs : List TranscriptSpec) (pidx : String → Option (List ℕ))
    (alpha_m_base alpha_p_base delta_m delta_p : ℝ) (cfgs : List InducerConfig)
    (dt : ℝ) : ℕ → ℕ → List ℝ → List (List ℝ)
  | _, 0, _ => []
  | i, remaining + 1, y =>
      let y2 := rk4Step specs pidx alpha_m_base alpha_p_base delta_m delta_p cfgs dt
        ((i : ℝ) * dt) y
      y2 :: rk4Rows specs pidx alpha_m_base alpha_p_base delta_m delta_p cfgs dt
        (i + 1) remaining y2

/-- `rk4_integrate` from `integrators.py`.  Returns the time grid and
the `steps × total_dim` state matrix, or the `_init_state` validation
error. -/
def rk4_integrate (specs : List TranscriptSpec) (T dt : ℝ)
    (alpha_m_base alpha_p_base delta_m delta_p : ℝ)
    (m0_by_gene p0_by_gene : List ℝ) (cfgs : List InducerConfig) :
    Except String (List ℝ × List (List ℝ)) :=
  match _init_state specs m0_by_gene p0_by_gene with
  | Except.error e => Except.error e
  | Except.ok y0 =>
      let pidx := _build_protein_index specs
      Except.ok (tgridOf T dt,
        y0 :: rk4Rows specs pidx alpha_m_base alpha_p_base delta_m delta_p cfgs dt
          0 (stepsOf T dt - 1) y0)

/-- `np.cumsum` over the propensity array: running partial sums. -/
def cumsumFrom (acc : ℝ) : List ℝ → List ℝ
  | [] => []
  | x :: xs => (acc + x) :: cumsumFrom (acc + x) xs

/-- `np.cumsum`. -/
def cumsum (xs : List ℝ) : List ℝ := cumsumFrom 0 xs

/-- `np.searchsorted(xs, t)` (left side) on the nondecreasing arrays it
is applied to here: the least index whose entry is `≥ t`, i.e. the
length of the longest prefix of entries `< t` (the binary search of
`numpy` computes exactly this insertion point on sorted input). -/
def searchsortedLeft : List ℝ → ℝ → ℕ
  | [], _ => 0
  | x :: xs, t => if x < t then searchsortedLeft xs t + 1 else 0

/-- The reaction-selection rule shared verbatim by `gillespie_integrate`
and `gillespie_final_state`:
`mu = np.searchsorted(np.cumsum(props), target)` clamped to the last
reaction when it overflows the array. -/
def selectReaction (props : List ℝ) (target : ℝ) : ℕ :=
  let mu := searchsortedLeft (cumsum props) target
  if props.length ≤ mu then props.length - 1 else mu

/-- The per-transcript `(offset, n_cistrons)` slices precomputed by both
Gillespie variants. -/
def slicesOf : List TranscriptSpec → ℕ → List (ℕ × ℕ)
  | [], _ => []
  | s :: rest, o => (o, s.cistron_ids.length) :: slicesOf rest (o + 2 * s.cistron_ids.length)

/-- The four reaction channels appended per cistron `j` by both
Gillespie variants, with their clamped propensities:
transcription, mRNA decay, translation, protein decay. -/
def geneReactions (alpha_p_base delta_m delta_p : ℝ) (y : List ℝ)
    (spec : TranscriptSpec) (txi o : ℕ) (a_tx : ℝ) : List (ℝ × String × ℕ × ℕ) :=
  ((List.range spec.cistron_ids.length).map (fun j =>
    [(max 0 a_tx, ("tx", txi, j)),
     (max 0 (delta_m * y.getD (o + 2 * j) 0), ("degm", txi, j)),
     (max 0 (alpha_p_base * spec.rbs_strengths.getD j 0 * y.getD (o + 2 * j) 0),
       ("tl", txi, j)),
     (max 0 (delta_p * y.getD (o + 2 * j + 1) 0), ("degp", txi, j))])).flatten

/-- The `(props, reactions)` pairs built per iteration of
`gillespie_integrate` (transcription rates include the inducer
factor). -/
def gillespiePR (pidx : String → Option (List ℕ))
    (alpha_m_base alpha_p_base delta_m delta_p : ℝ) (ind : List (String × ℝ))
    (y : List ℝ) : List TranscriptSpec → ℕ → ℕ → List (ℝ × String × ℕ × ℕ)
  | [], _, _ => []
  | spec :: rest, txi, o =>
      geneReactions alpha_p_base delta_m delta_p y spec txi o
          (transcriptionRate pidx alpha_m_base ind y spec)
        ++ gillespiePR pidx alpha_m_base alpha_p_base delta_m delta_p ind y rest
            (txi + 1) (o + 2 * spec.cistron_ids.length)

/-- The `(props, reactions)` pairs built per iteration of
`gillespie_final_state` (no inducer factor anywhere). -/
def gillespieFinalPR (pidx : String → Option (List ℕ))
    (alpha_m_base alpha_p_base delta_m delta_p : ℝ)
    (y : List ℝ) : List TranscriptSpec → ℕ → ℕ → List (ℝ × String × ℕ × ℕ)
  | [], _, _ => []
  | spec :: rest, txi, o =>
      geneReactions alpha_p_base delta_m delta_p y spec txi o
          (transcriptionRateFinal pidx alpha_m_base y spec)
        ++ gillespieFinalPR pidx alpha_m_base alpha_p_base delta_m delta_p y rest
            (txi + 1) (o + 2 * spec.cistron_ids.length)

/-- The state update applied for the selected reaction, shared verbatim
by both Gillespie variants: `±1` on the mRNA or protein slot, decay
reactions being no-ops on an already-zero count. -/
def applyReaction (slices : List (ℕ × ℕ)) (y : List ℝ) (r : String × ℕ × ℕ) : List ℝ :=
  let kind := r.1
  let txi := r.2.1
  let j := r.2.2
  let o := (slices.getD txi (0, 0)).1
  if kind = "tx" then y.set (o + 2 * j) (y.getD (o + 2 * j) 0 + 1)
  else if kind = "degm" then
    (if 0 < y.getD (o + 2 * j) 0 then y.set (o + 2 * j) (y.getD (o + 2 * j) 0 - 1) else y)
  else if kind = "tl" then y.set (o + 2 * j + 1) (y.getD (o + 2 * j + 1) 0 + 1)
  else if kind = "degp" then
    (if 0 < y.getD (o + 2 * j + 1) 0 then
      y.set (o + 2 * j + 1) (y.getD (o + 2 * j + 1) 0 - 1) else y)
  else y

/-- The grid-sampling inner loop of `gillespie_integrate`: record the
pre-reaction state `y` at every remaining grid point `≤ t_next`.
`remaining = steps - next_sample` bounds the loop; returns the recorded
rows and the new `next_sample`. -/
def fillRows (y : List ℝ) (dt t_next : ℝ) : ℕ → ℕ → List (List ℝ) × ℕ
  | 0, ns => ([], ns)
  | remaining + 1, ns =>
      if (ns : ℝ) * dt ≤ t_next then
        let r := fillRows y dt t_next remaining (ns + 1)
        (y :: r.1, r.2)
      else ([], ns)

/-- The main event loop of `gillespie_integrate`, producing rows
`Y[1], …, Y[steps-1]`.  `draws i = (r1, r2)` models the two uniform
draws of iteration `i`; `fuel` bounds the unbounded `while t < T` loop
(on fuel exhaustion the remaining grid points are back-filled with the
current state, as after a normal loop exit). -/
def gillespieLoop (specs : List TranscriptSpec) (pidx : String → Option (List ℕ))
    (slices : List (ℕ × ℕ)) (alpha_m_base alpha_p_base delta_m delta_p : ℝ)
    (cfgs : List InducerConfig) (draws : ℕ → ℝ × ℝ) (T dt : ℝ) (steps : ℕ) :
    ℕ → ℕ → ℝ → List ℝ → ℕ → List (List ℝ)
  | 0, _, _, y, ns => List.replicate (steps - ns) y
  | fuel + 1, i, t, y, ns =>
      if t < T ∧ ns < steps then
        let ind := inducerConcsAt cfgs t
        let pr := gillespiePR pidx alpha_m_base alpha_p_base delta_m delta_p ind y specs 0 0
        let props := pr.map Prod.fst
        let a0 := props.sum
        if a0 ≤ 0 then List.replicate (steps - ns) y
        else
          let r1 := (draws i).1
          let r2 := (draws i).2
          let tau := (1 / a0) * Real.log (1 / max r1 1e-12)
          let t_next := t + tau
          let filled := fillRows y dt t_next (steps - ns) ns
          let mu := selectReaction props (r2 * a0)
          let y2 := applyReaction slices y ((pr.map Prod.snd).getD mu ("", 0, 0))
          filled.1 ++ gillespieLoop specs pidx slices alpha_m_base alpha_p_base
            delta_m delta_p cfgs draws T dt steps fuel (i + 1) t_next y2 filled.2
      else List.replicate (steps - ns) y

/-- `gillespie_integrate` from `integrators.py`: SSA with uniform-grid
sampling by holding the last state.  Returns the grid and the
`steps × total_dim` matrix, or the `_init_state` validation error. -/
def gillespie_integrate (specs : List TranscriptSpec) (T dt : ℝ)
    (alpha_m_base alpha_p_base delta_m delta_p : ℝ)
    (m0_by_gene p0_by_gene : List ℝ) (draws : ℕ → ℝ × ℝ)
    (cfgs : List InducerConfig) (fuel : ℕ) :
    Except String (List ℝ × List (List ℝ)) :=
  match _init_state specs m0_by_gene p0_by_gene with
  | Except.error e => Except.error e
  | Except.ok y0 =>
      let pidx := _build_protein_index specs
      let slices := slicesOf specs 0
      Except.ok (tgridOf T dt,
        y0 :: gillespieLoop specs pidx slices alpha_m_base alpha_p_base delta_m delta_p
          cfgs draws T dt (stepsOf T dt) fuel 0 0 y0 1)

/-- The event loop of `gillespie_final_state`: no grid bookkeeping; a
reaction whose `t_next` would pass `T` is discarded and the loop
exits. -/
def gillespieFinalLoop (specs : List TranscriptSpec)
    (pidx : String → Option (List ℕ)) (slices : List (ℕ × ℕ))
    (alpha_m_base alpha_p_base delta_m delta_p : ℝ) (draws : ℕ → ℝ × ℝ) (T : ℝ) :
    ℕ → ℕ → ℝ → List ℝ → List ℝ
  | 0, _, _, y => y
  | fuel + 1, i, t, y =>
      if t < T then
        let pr := gillespieFinalPR pidx alpha_m_base alpha_p_base delta_m delta_p y specs 0 0
        let props := pr.map Prod.fst
        let a0 := props.sum
        if a0 ≤ 0 then y
        else
          let r1 := (draws i).1
          let r2 := (draws i).2
          let tau := (1 / a0) * Real.log (1 / max r1 1e-12)
          let t_next := t + tau
          if T < t_next then y
          else
            let mu := selectReaction props (r2 * a0)
            let y2 := applyReaction slices y ((pr.map Prod.snd).getD mu ("", 0, 0))
            gillespieFinalLoop specs pidx slices alpha_m_base alpha_p_base
              delta_m delta_p draws T fuel (i + 1) t_next y2
      else y

/-- `gillespie_final_state` from `integrators.py`: SSA returning only
the terminal state (flow-cytometry mode).  Note its signature takes no
inducer configurations. -/
def gillespie_final_state (specs : List TranscriptSpec) (T : ℝ)
    (alpha_m_base alpha_p_base delta_m delta_p : ℝ)
    (m0_by_gene p0_by_gene : List ℝ) (draws : ℕ → ℝ × ℝ) (fuel : ℕ) :
    Except String (List ℝ) :=
  match _init_state specs m0_by_gene p0_by_gene with
  | Except.error e => Except.error e
  | Except.ok y0 =>
      let pidx := _build_protein_index specs
      let slices := slicesOf specs 0
      Except.ok (gillespieFinalLoop specs pidx slices alpha_m_base alpha_p_base
        delta_m delta_p draws T fuel 0 0 y0)

end

/-- The state-vector length asserted by the specification text for the
packed layout: "total length = Σ(1 + n_cistrons_i)" (one shared mRNA
slot per transcript).  Stated from the spec's words, for comparison
with `_init_state`. -/
def specClaimedStateLen (specs : List TranscriptSpec) : ℕ :=
  (specs.map (fun s => 1 + s.cistron_ids.length)).sum

/-- The state construction inlined in the legacy `simulate.rk4_integrate`
(`simulate.py`): per transcript one shared mRNA slot at value `m0`
followed by `n_cistrons` protein slots at value `p0`. -/
def simulateLegacyInitState (specs : List TranscriptSpec) (m0 p0 : ℝ) : List ℝ :=
  (specs.map (fun s => m0 :: List.replicate s.cistron_ids.length p0)).flatten

/-! ### Helper lemmas about the kinetics functions -/

theorem hill_activation_of_nonpos (x K n leak : ℝ) (hK : K ≤ 0) :
    hill_activation x K n leak = leak := by
  unfold hill_activation
  rw [if_pos hK]

theorem hill_activation_at_zero (K n leak : ℝ) (hK : 0 < K) (hn : n ≠ 0) :
    hill_activation 0 K n leak = leak := by
  unfold hill_activation
  rw [if_neg (not_le.mpr hK), Real.zero_rpow hn]
  simp

theorem hill_repression_at_zero (K n : ℝ) (hK : 0 < K) (hn : n ≠ 0) :
    hill_repression 0 K n = 1 := by
  unfold hill_repression
  rw [if_neg (not_le.mpr hK), zero_div, Real.zero_rpow hn]
  norm_num

theorem hill_activation_mono (K n leak : ℝ) (hK : 0 < K) (hn : 0 < n) (h1 : leak ≤ 1)
    (x y : ℝ) (hx : 0 ≤ x) (hxy : x ≤ y) :
    hill_activation x K n leak ≤ hill_activation y K n leak := by
  unfold hill_activation
  rw [if_neg (not_le.mpr hK), if_neg (not_le.mpr hK)]
  have hKn : 0 < K ^ n := Real.rpow_pos_of_pos hK n
  have hxn : (0 : ℝ) ≤ x ^ n := Real.rpow_nonneg hx n
  have hmono : x ^ n ≤ y ^ n := Real.rpow_le_rpow hx hxy (le_of_lt hn)
  have key : x ^ n / (K ^ n + x ^ n) ≤ y ^ n / (K ^ n + y ^ n) := by
    rw [div_le_div_iff₀ (by linarith) (by linarith)]
    nlinarith [mul_le_mul_of_nonneg_left hmono (le_of_lt hKn)]
  nlinarith [mul_le_mul_of_nonneg_left key (show (0 : ℝ) ≤ 1 - leak by linarith)]

theorem hill_activation_bounds (x K n leak : ℝ) (hK : 0 < K)
    (h1 : leak ≤ 1) (hx : 0 ≤ x) :
    leak ≤ hill_activation x K n leak ∧ hill_activation x K n leak ≤ 1 := by
  unfold hill_activation
  rw [if_neg (not_le.mpr hK)]
  have hKn : 0 < K ^ n := Real.rpow_pos_of_pos hK n
  have hxn : (0 : ℝ) ≤ x ^ n := Real.rpow_nonneg hx n
  have hfrac0 : (0 : ℝ) ≤ x ^ n / (K ^ n + x ^ n) := div_nonneg hxn (by linarith)
  have hfrac1 : x ^ n / (K ^ n + x ^ n) ≤ 1 := by
    rw [div_le_one (by linarith)]
    linarith
  constructor
  · nlinarith
  · nlinarith

/-- C6: for K > 0, n > 0 and leak ∈ [0,1], `hill_activation` equals
`leak` at `x = 0`, is non-decreasing on `x ≥ 0`, takes values in
`[leak, 1]` there, and degenerates to `leak` for every `x` when
`K ≤ 0`. -/
theorem hill_activation_spec (K n leak x y K2 z : ℝ)
    (hK : 0 < K) (hn : 0 < n) (h0 : 0 ≤ leak) (h1 : leak ≤ 1)
    (hx : 0 ≤ x) (hxy : x ≤ y) (hK2 : K2 ≤ 0) :
    hill_activation 0 K n leak = leak
    ∧ hill_activation x K n leak ≤ hill_activation y K n leak
    ∧ leak ≤ hill_activation x K n leak
    ∧ hill_activation x K n leak ≤ 1
    ∧ hill_activation z K2 n leak = leak :=
  ⟨hill_activation_at_zero K n leak hK (ne_of_gt hn),
   hill_activation_mono K n leak hK hn h1 x y hx hxy,
   (hill_activation_bounds x K n leak hK h1 hx).1,
   (hill_activation_bounds x K n leak hK h1 hx).2,
   hill_activation_of_nonpos z K2 n leak hK2⟩

/-- Witness for C6 at K = 1, n = 1, leak = 1/2, x = 0, y = 3, K2 = 0,
z = 7. -/
theorem hill_activation_spec_witness :
    hill_activation 0 1 1 (1 / 2) = 1 / 2
    ∧ hill_activation 0 1 1 (1 / 2) ≤ hill_activation 3 1 1 (1 / 2)
    ∧ (1 / 2 : ℝ) ≤ hill_activation 0 1 1 (1 / 2)
    ∧ hill_activation 0 1 1 (1 / 2) ≤ 1
    ∧ hill_activation 7 0 1 (1 / 2) = 1 / 2 :=
  hill_activation_spec 1 1 (1 / 2) 0 3 0 7 (by norm_num) (by norm_num)
    (by norm_num) (by norm_num) (by norm_num) (by norm_num) (by norm_num)

/-! ### C4: constant inducer and the activation delay -/

/-- Concrete constant inducer configuration with a positive delay. -/
def cfgC4 : InducerConfig :=
  ⟨"IPTG", "constant", 2, 0, 1, 100, 0.5, 0.01, 5⟩

/-- C4 counterexample: a constant config with `value = 2`, `delay = 5`
evaluated at `t = 1 ≥ 0` returns `0`, not the configured value — the
code holds a constant inducer at `0` before its delay. -/
theorem constant_inducer_delay_counterexample :
    compute_inducer_concentration cfgC4 1 ≠ cfgC4.value := by
  have h : compute_inducer_concentration cfgC4 1 = 0 := by
    unfold compute_inducer_concentration cfgC4
    norm_num
  rw [h]
  unfold cfgC4
  norm_num

/-- C4 amended: for a constant config, `compute_inducer_concentration`
returns `0` for `t < delay` and the configured value for every
`t ≥ delay` (so "regardless of delay" holds only from the delay on, or
when the delay is zero). -/
theorem constant_inducer_value (config : InducerConfig) (t : ℝ)
    (hfunc : config.function = "constant") :
    (t < config.delay → compute_inducer_concentration config t = 0)
    ∧ (config.delay ≤ t → compute_inducer_concentration config t = config.value) := by
  unfold compute_inducer_concentration
  constructor
  · intro h
    rw [if_pos h]
    simp [hfunc]
  · intro h
    rw [if_neg (not_lt.mpr h)]
    simp [hfunc]

/-- Witness for C4 (amended) on `cfgC4` at `t = 1`. -/
theorem constant_inducer_value_witness :
    cfgC4.function = "constant"
    ∧ (((1 : ℝ) < cfgC4.delay → compute_inducer_concentration cfgC4 1 = 0)
       ∧ (cfgC4.delay ≤ (1 : ℝ) → compute_inducer_concentration cfgC4 1 = cfgC4.value)) :=
  ⟨rfl, constant_inducer_value cfgC4 1 rfl⟩

/-! ### C3: unresolved regulator name references -/

theorem truthy_none_eq_false : truthy none = false := rfl

/-- A transcript whose activator, repressor and inducer names match no
protein or inducer in the circuit (its only protein label is "GFP"). -/
def ghostSpec : TranscriptSpec where
  transcript_id := "t1"
  promoter_strength := 1
  leak := 0
  activator_name := some "ghostA"
  actK := 10
  actN := 2
  inhibitor_name := some "ghostR"
  repK := 10
  repN := 2
  inducer_name := some "ghostI"
  indK := 1
  indN := 2
  cistron_ids := ["g1"]
  protein_labels := ["GFP"]
  rbs_strengths := [1]

/-- `ghostSpec` with the unresolved activator reference removed. -/
def ghostSpecNoAct : TranscriptSpec := { ghostSpec with activator_name := none }

/-- C3 counterexample: with `leak = 0`, the transcription rate of
`ghostSpec` (whose activator name resolves to no protein) is `0`, while
the same spec with the activator regulation absent has rate `1` — the
unresolved reference does **not** behave as "no regulation". -/
theorem unresolved_regulator_counterexample :
    transcriptionRate (_build_protein_index [ghostSpec]) 1 [] [0, 0] ghostSpec
      ≠ transcriptionRate (_build_protein_index [ghostSpec]) 1 [] [0, 0] ghostSpecNoAct := by
  have hnoneA : _build_protein_index [ghostSpec] (canonical_inhibitor_key "ghostA") = none := by
    decide
  have hnoneR : _build_protein_index [ghostSpec] (canonical_inhibitor_key "ghostR") = none := by
    decide
  have hcA : regConc (_build_protein_index [ghostSpec]) [0, 0] "ghostA" = 0 := by
    unfold regConc
    rw [hnoneA]
  have hcR : regConc (_build_protein_index [ghostSpec]) [0, 0] "ghostR" = 0 := by
    unfold regConc
    rw [hnoneR]
  have hact : hill_activation 0 10 2 0 = 0 :=
    hill_activation_at_zero 10 2 0 (by norm_num) (by norm_num)
  have hrep : hill_repression 0 10 2 = 1 :=
    hill_repression_at_zero 10 2 (by norm_num) (by norm_num)
  have eA : ghostSpec.activator_name = some "ghostA" := rfl
  have eR : ghostSpec.inhibitor_name = some "ghostR" := rfl
  have eI : ghostSpec.inducer_name = some "ghostI" := rfl
  have eL : ghostSpec.leak = 0 := rfl
  have eaK : ghostSpec.actK = 10 := rfl
  have eaN : ghostSpec.actN = 2 := rfl
  have erK : ghostSpec.repK = 10 := rfl
  have erN : ghostSpec.repN = 2 := rfl
  have eP : ghostSpec.promoter_strength = 1 := rfl
  have eNA : ghostSpecNoAct.activator_name = none := rfl
  have eNR : ghostSpecNoAct.inhibitor_name = some "ghostR" := rfl
  have eNI : ghostSpecNoAct.inducer_name = some "ghostI" := rfl
  have eNrK : ghostSpecNoAct.repK = 10 := rfl
  have eNrN : ghostSpecNoAct.repN = 2 := rfl
  have eNP : ghostSpecNoAct.promoter_strength = 1 := rfl
  have hL : transcriptionRate (_build_protein_index [ghostSpec]) 1 [] [0, 0] ghostSpec = 0 := by
    unfold transcriptionRate
    rw [eA, eR, eI, eL, eaK, eaN, erK, erN, eP]
    simp [truthy, hcA, hcR, hact, hrep]
  have hR : transcriptionRate (_build_protein_index [ghostSpec]) 1 [] [0, 0] ghostSpecNoAct
      = 1 := by
    unfold transcriptionRate
    rw [eNA, eNR, eNI, eNrK, eNrN, eNP]
    simp [truthy, hcR, hrep]
  rw [hL, hR]
  norm_num

/-- C3 amended: an unresolved regulator reference raises no error and
contributes a concentration of `0`; each regulation is handled
independently: an unresolved *repressor* coincides with "no regulation"
(factor `1`); an unresolved *activator* gives the `leak` floor, i.e.
`leak` times the rate with the activator absent; an inducer name
missing from a *non-empty* concentration mapping likewise gives `leak`
times the rate with the inducer absent; and when the mapping is empty
(no inducer configs at all) the inducer factor is skipped entirely, so
the rate equals the rate with the inducer absent. -/
theorem unresolved_regulator_behavior (pidx : String → Option (List ℕ)) (amb : ℝ)
    (ind : List (String × ℝ)) (y : List ℝ) (spec : TranscriptSpec) (nm : String) :
    (pidx (canonical_inhibitor_key nm) = none → regConc pidx y nm = 0)
    ∧ (truthy spec.inhibitor_name = true →
        pidx (canonical_inhibitor_key (spec.inhibitor_name.getD "")) = none →
        0 < spec.repK → spec.repN ≠ 0 →
        transcriptionRate pidx amb ind y spec
          = transcriptionRate pidx amb ind y { spec with inhibitor_name := none })
    ∧ (truthy spec.activator_name = true →
        pidx (canonical_inhibitor_key (spec.activator_name.getD "")) = none →
        0 < spec.actK → spec.actN ≠ 0 →
        transcriptionRate pidx amb ind y spec
          = spec.leak * transcriptionRate pidx amb ind y { spec with activator_name := none })
    ∧ (truthy spec.inducer_name = true → ind.isEmpty = false →
        List.lookup (spec.inducer_name.getD "") ind.reverse = none →
        0 < spec.indK → spec.indN ≠ 0 →
        transcriptionRate pidx amb ind y spec
          = spec.leak * transcriptionRate pidx amb ind y { spec with inducer_name := none })
    ∧ (ind.isEmpty = true →
        transcriptionRate pidx amb ind y spec
          = transcriptionRate pidx amb ind y { spec with inducer_name := none }) := by
  refine ⟨?_, ?_, ?_, ?_, ?_⟩
  · intro h
    unfold regConc
    rw [h]
  · intro ht hn hK hN
    have hcr : regConc pidx y (spec.inhibitor_name.getD "") = 0 := by
      unfold regConc
      rw [hn]
    unfold transcriptionRate
    simp only [ht, hcr, truthy_none_eq_false, Bool.false_eq_true, eq_self_iff_true,
      if_true, if_false, ite_self, mul_one,
      hill_repression_at_zero spec.repK spec.repN hK hN]
  · intro ht hn hK hN
    have hca : regConc pidx y (spec.activator_name.getD "") = 0 := by
      unfold regConc
      rw [hn]
    unfold transcriptionRate
    simp only [ht, hca, truthy_none_eq_false, Bool.false_eq_true, eq_self_iff_true,
      if_true, if_false, ite_self, mul_one,
      hill_activation_at_zero spec.actK spec.actN spec.leak hK hN]
    ring
  · intro ht hne hlk hK hN
    have hdg : dget ind (spec.inducer_name.getD "") = 0 := by
      unfold dget
      rw [hlk]
      rfl
    unfold transcriptionRate
    simp only [ht, hne, hdg, truthy_none_eq_false, Bool.not_false, Bool.and_self,
      Bool.true_and, Bool.false_and, Bool.false_eq_true, eq_self_iff_true,
      if_true, if_false, ite_self, mul_one,
      hill_activation_at_zero spec.indK spec.indN spec.leak hK hN]
    ring
  · intro hemp
    unfold transcriptionRate
    simp only [hemp, Bool.not_true, Bool.and_false, truthy_none_eq_false,
      Bool.false_and, Bool.false_eq_true, if_false]

/-- Witness for C3 (amended): each case of the theorem discharged
concretely on `ghostSpec` — cases 1-4 with the non-empty mapping
`[("aTc", 1)]` (which does not contain `"ghostI"`), case 5 with the
empty mapping. -/
theorem unresolved_regulator_behavior_witness :
    regConc (_build_protein_index [ghostSpec]) [0, 0] "ghostA" = 0
    ∧ transcriptionRate (_build_protein_index [ghostSpec]) 1 [("aTc", 1)] [0, 0] ghostSpec
        = transcriptionRate (_build_protein_index [ghostSpec]) 1 [("aTc", 1)] [0, 0]
            { ghostSpec with inhibitor_name := none }
    ∧ transcriptionRate (_build_protein_index [ghostSpec]) 1 [("aTc", 1)] [0, 0] ghostSpec
        = ghostSpec.leak
            * transcriptionRate (_build_protein_index [ghostSpec]) 1 [("aTc", 1)] [0, 0]
                { ghostSpec with activator_name := none }
    ∧ transcriptionRate (_build_protein_index [ghostSpec]) 1 [("aTc", 1)] [0, 0] ghostSpec
        = ghostSpec.leak
            * transcriptionRate (_build_protein_index [ghostSpec]) 1 [("aTc", 1)] [0, 0]
                { ghostSpec with inducer_name := none }
    ∧ transcriptionRate (_build_protein_index [ghostSpec]) 1 [] [0, 0] ghostSpec
        = transcriptionRate (_build_protein_index [ghostSpec]) 1 [] [0, 0]
            { ghostSpec with inducer_name := none } := by
  have h1 := unresolved_regulator_behavior (_build_protein_index [ghostSpec]) 1
    [("aTc", 1)] [0, 0] ghostSpec "ghostA"
  have h2 := unresolved_regulator_behavior (_build_protein_index [ghostSpec]) 1
    [] [0, 0] ghostSpec "ghostA"
  exact ⟨h1.1 (by decide),
    h1.2.1 rfl (by decide) (by norm_num [ghostSpec]) (by norm_num [ghostSpec]),
    h1.2.2.1 rfl (by decide) (by norm_num [ghostSpec]) (by norm_num [ghostSpec]),
    h1.2.2.2.1 rfl rfl rfl (by norm_num [ghostSpec]) (by norm_num [ghostSpec]),
    h2.2.2.2.2 rfl⟩

/-! ### C2: packed state-vector length -/

theorem interleave_length (a b : List ℝ) (h : a.length = b.length) :
    (interleave a b).length = 2 * a.length := by
  induction a generalizing b with
  | nil =>
      cases b with
      | nil => rfl
      | cons x xs => simp at h
  | cons x xs ih =>
      cases b with
      | nil => simp at h
      | cons y ys =>
          simp only [List.length_cons, Nat.succ.injEq] at h
          simp only [interleave, List.length_cons, ih ys h]
          omega

theorem totalDim_eq_two_mul_totalGenes (specs : List TranscriptSpec) :
    totalDim specs = 2 * totalGenes specs := by
  induction specs with
  | nil => rfl
  | cons s rest ih =>
      simp only [totalDim, totalGenes, List.map_cons, List.sum_cons] at ih ⊢
      omega

theorem simulateLegacyInitState_length (specs : List TranscriptSpec) (m0s p0s : ℝ) :
    (simulateLegacyInitState specs m0s p0s).length = specClaimedStateLen specs := by
  unfold simulateLegacyInitState specClaimedStateLen
  induction specs with
  | nil => rfl
  | cons s rest ih =>
      simp only [List.map_cons, List.flatten_cons, List.sum_cons, List.length_append,
        List.length_cons, List.length_replicate] at ih ⊢
      omega

/-- A transcript with two cistrons (a two-gene operon). -/
def twoGeneSpec : TranscriptSpec where
  transcript_id := "t2"
  promoter_strength := 1
  leak := 0
  activator_name := none
  actK := 10
  actN := 2
  inhibitor_name := none
  repK := 10
  repN := 2
  inducer_name := none
  indK := 1
  indN := 2
  cistron_ids := ["gA", "gB"]
  protein_labels := ["A", "B"]
  rbs_strengths := [1, 1]

/-- C2 counterexample: for a single transcript with two cistrons,
`_init_state` produces a state vector of length 4 (`Σ 2·n_cistrons`),
not the claimed `Σ(1 + n_cistrons) = 3`. -/
theorem packed_state_len_counterexample :
    (_init_state [twoGeneSpec] [0, 0] [0, 0]).map List.length
      ≠ Except.ok (specClaimedStateLen [twoGeneSpec]) := by
  have h : (_init_state [twoGeneSpec] [0, 0] [0, 0]).map List.length
      = Except.ok 4 := rfl
  rw [h]
  have h2 : specClaimedStateLen [twoGeneSpec] = 3 := rfl
  rw [h2]
  simp

/-- C2 amended: the state vector built by `_init_state` (used by the
RK4 and Gillespie engines of `integrators.py`) has total length
`Σ 2·n_cistrons_i` — per cistron one mRNA slot followed by that gene's
protein slot; the `Σ(1 + n_cistrons_i)` layout with a single shared
mRNA slot per transcript is the one built by the legacy
`simulate.rk4_integrate`. -/
theorem init_state_length (specs : List TranscriptSpec) (m0 p0 : List ℝ) (y : List ℝ)
    (m0s p0s : ℝ) (h : _init_state specs m0 p0 = Except.ok y) :
    y.length = totalDim specs
    ∧ (simulateLegacyInitState specs m0s p0s).length = specClaimedStateLen specs := by
  constructor
  · unfold _init_state at h
    by_cases hc : m0.length ≠ totalGenes specs ∨ p0.length ≠ totalGenes specs
    · rw [if_pos hc] at h
      exact absurd h (by simp)
    · rw [if_neg hc] at h
      push_neg at hc
      have hy : y = interleave m0 p0 := by
        injection h with h2
        exact h2.symm
      rw [hy, interleave_length m0 p0 (by rw [hc.1, hc.2]),
        totalDim_eq_two_mul_totalGenes, hc.1]
  · exact simulateLegacyInitState_length specs m0s p0s

/-- Witness for C2 (amended) on `twoGeneSpec`. -/
theorem init_state_length_witness :
    _init_state [twoGeneSpec] [0, 0] [0, 0] = Except.ok [0, 0, 0, 0]
    ∧ ([(0 : ℝ), 0, 0, 0].length = totalDim [twoGeneSpec]
       ∧ (simulateLegacyInitState [twoGeneSpec] 5 7).length
           = specClaimedStateLen [twoGeneSpec]) :=
  ⟨rfl, init_state_length [twoGeneSpec] [0, 0] [0, 0] [0, 0, 0, 0] 5 7 rfl⟩

/-! ### C9: initial-condition validation fails fast -/

/-- A single unregulated one-cistron transcript. -/
def unregSpec : TranscriptSpec where
  transcript_id := "t0"
  promoter_strength := 1
  leak := 0
  activator_name := none
  actK := 10
  actN := 2
  inhibitor_name := none
  repK := 10
  repN := 2
  inducer_name := none
  indK := 1
  indN := 2
  cistron_ids := ["g0"]
  protein_labels := ["P0"]
  rbs_strengths := [1]

/-- C9: when the per-gene initial-condition arrays mismatch the total
gene count, `_init_state`'s descriptive validation error is returned by
`rk4_integrate`, `gillespie_integrate` and `gillespie_final_state`
before any stepping — the result carries no state matrix. -/
theorem length_mismatch_fails_fast (specs : List TranscriptSpec)
    (T dt amb apb dm dp : ℝ) (m0 p0 : List ℝ) (cfgs : List InducerConfig)
    (draws : ℕ → ℝ × ℝ) (fuel : ℕ)
    (h : m0.length ≠ totalGenes specs ∨ p0.length ≠ totalGenes specs) :
    rk4_integrate specs T dt amb apb dm dp m0 p0 cfgs
        = Except.error (initErrMsg (totalGenes specs) m0.length p0.length)
    ∧ gillespie_integrate specs T dt amb apb dm dp m0 p0 draws cfgs fuel
        = Except.error (initErrMsg (totalGenes specs) m0.length p0.length)
    ∧ gillespie_final_state specs T amb apb dm dp m0 p0 draws fuel
        = Except.error (initErrMsg (totalGenes specs) m0.length p0.length) := by
  have hi : _init_state specs m0 p0
      = Except.error (initErrMsg (totalGenes specs) m0.length p0.length) := by
    unfold _init_state
    rw [if_pos h]
  refine ⟨?_, ?_, ?_⟩
  · unfold rk4_integrate
    rw [hi]
  · unfold gillespie_integrate
    rw [hi]
  · unfold gillespie_final_state
    rw [hi]

/-- Witness for C9: one gene but empty `m0_by_gene`. -/
theorem length_mismatch_fails_fast_witness :
    (([] : List ℝ).length ≠ totalGenes [unregSpec]
      ∨ [(0 : ℝ)].length ≠ totalGenes [unregSpec])
    ∧ (rk4_integrate [unregSpec] 1 1 1 1 0.1 0.01 [] [0] []
        = Except.error
            (initErrMsg (totalGenes [unregSpec]) ([] : List ℝ).length [(0 : ℝ)].length)
       ∧ gillespie_integrate [unregSpec] 1 1 1 1 0.1 0.01 [] [0] (fun _ => (0.5, 0.5)) [] 1
        = Except.error
            (initErrMsg (totalGenes [unregSpec]) ([] : List ℝ).length [(0 : ℝ)].length)
       ∧ gillespie_final_state [unregSpec] 1 1 1 0.1 0.01 [] [0] (fun _ => (0.5, 0.5)) 1
        = Except.error
            (initErrMsg (totalGenes [unregSpec]) ([] : List ℝ).length [(0 : ℝ)].length)) :=
  ⟨Or.inl (by decide),
   length_mismatch_fails_fast [unregSpec] 1 1 1 1 0.1 0.01 [] [0] []
     (fun _ => (0.5, 0.5)) 1 (Or.inl (by decide))⟩

/-! ### C10: shape preservation of the RHS evaluator -/

theorem totalDim_cons (s : TranscriptSpec) (rest : List TranscriptSpec) :
    totalDim (s :: rest) = 2 * s.cistron_ids.length + totalDim rest := by
  simp [totalDim]

theorem rhsBlock_length (y : List ℝ) (am apb dm dp : ℝ) (s : TranscriptSpec) (off : ℕ) :
    (rhsBlock y am apb dm dp s off).length = 2 * s.cistron_ids.length := by
  unfold rhsBlock
  rw [interleave_length _ _ (by simp)]
  simp

theorem rhsGo_length (y : List ℝ) (pidx : String → Option (List ℕ))
    (amb apb dm dp : ℝ) (ind : List (String × ℝ)) (specs : List TranscriptSpec) :
    ∀ offset, offset + totalDim specs ≤ y.length →
      (rhsGo y pidx amb apb dm dp ind specs offset).length = y.length - offset := by
  induction specs with
  | nil =>
      intro off _
      simp [rhsGo]
  | cons s rest ih =>
      intro off h
      rw [totalDim_cons] at h
      simp only [rhsGo, List.length_append, rhsBlock_length,
        ih (off + 2 * s.cistron_ids.length) (by omega)]
      omega

/-- C10: the RHS evaluator is a pure function on the model (it can
only read its arguments) and, for a state vector covering every
transcript slot, returns a derivative array of exactly the input's
length (slots past the last transcript stay at their `np.zeros_like`
value). -/
theorem rhs_transcripts_shape (y : List ℝ) (specs : List TranscriptSpec)
    (pidx : String → Option (List ℕ)) (amb apb dm dp : ℝ) (ind : List (String × ℝ))
    (h : totalDim specs ≤ y.length) :
    (_rhs_transcripts y specs pidx amb apb dm dp ind).length = y.length := by
  unfold _rhs_transcripts
  rw [rhsGo_length y pidx amb apb dm dp ind specs 0 (by omega)]
  omega

/-- Witness for C10 on `unregSpec` with the conforming state `[0, 0]`. -/
theorem rhs_transcripts_shape_witness :
    totalDim [unregSpec] ≤ [(0 : ℝ), 0].length
    ∧ (_rhs_transcripts [0, 0] [unregSpec] (fun _ => none) 1 1 0.1 0.01 []).length
        = [(0 : ℝ), 0].length :=
  ⟨by decide,
   rhs_transcripts_shape [0, 0] [unregSpec] (fun _ => none) 1 1 0.1 0.01 [] (by decide)⟩

/-! ### C5: RK4 non-negativity -/

theorem interleave_nonneg : ∀ (a b : List ℝ), (∀ v ∈ a, 0 ≤ v) → (∀ v ∈ b, 0 ≤ v) →
    ∀ v ∈ interleave a b, 0 ≤ v := by
  intro a
  induction a with
  | nil =>
      intro b _ _ v hv
      rw [show interleave [] b = [] from by cases b <;> rfl] at hv
      simp at hv
  | cons x xs ih =>
      intro b ha hb v hv
      cases b with
      | nil =>
          rw [show interleave (x :: xs) [] = [] from rfl] at hv
          simp at hv
      | cons z zs =>
          simp only [interleave, List.mem_cons] at hv
          rcases hv with rfl | rfl | hv
          · exact ha v (List.mem_cons_self _ _)
          · exact hb v (List.mem_cons_self _ _)
          · exact ih zs (fun w hw => ha w (List.mem_cons_of_mem _ hw))
              (fun w hw => hb w (List.mem_cons_of_mem _ hw)) v hv

theorem rk4Step_nonneg (specs : List TranscriptSpec) (pidx : String → Option (List ℕ))
    (amb apb dm dp : ℝ) (cfgs : List InducerConfig) (dt t : ℝ) (y : List ℝ) :
    ∀ v ∈ rk4Step specs pidx amb apb dm dp cfgs dt t y, 0 ≤ v := by
  intro v hv
  simp only [rk4Step, List.mem_map] at hv
  obtain ⟨w, _, rfl⟩ := hv
  exact le_max_right w 0

theorem rk4Rows_nonneg (specs : List TranscriptSpec) (pidx : String → Option (List ℕ))
    (amb apb dm dp : ℝ) (cfgs : List InducerConfig) (dt : ℝ) :
    ∀ (r i : ℕ) (y : List ℝ),
      ∀ row ∈ rk4Rows specs pidx amb apb dm dp cfgs dt i r y, ∀ v ∈ row, 0 ≤ v := by
  intro r
  induction r with
  | zero =>
      intro i y row hrow
      simp [rk4Rows] at hrow
  | succ r ih =>
      intro i y row hrow
      simp only [rk4Rows, List.mem_cons] at hrow
      rcases hrow with rfl | hrow
      · exact rk4Step_nonneg specs pidx amb apb dm dp cfgs dt ((i : ℝ) * dt) y
      · exact ih (i + 1) _ row hrow

/-- C5: for valid inputs (non-negative rates and initial conditions,
positive horizon and step), every entry of every row of the state
matrix produced by `rk4_integrate` is non-negative: row 0 is the
non-negative initial state, and every later row is clamped
component-wise by `np.maximum(y, 0.0)`. -/
theorem rk4_nonneg (specs : List TranscriptSpec) (T dt amb apb dm dp : ℝ)
    (m0 p0 : List ℝ) (cfgs : List InducerConfig)
    (hm : ∀ v ∈ m0, 0 ≤ v) (hp : ∀ v ∈ p0, 0 ≤ v)
    (hT : 0 < T) (hdt : 0 < dt)
    (hamb : 0 ≤ amb) (hapb : 0 ≤ apb) (hdm : 0 ≤ dm) (hdp : 0 ≤ dp)
    (hrbs : ∀ s ∈ specs, ∀ r ∈ s.rbs_strengths, 0 ≤ r)
    (hps : ∀ s ∈ specs, 0 ≤ s.promoter_strength) :
    ∀ tg Y, rk4_integrate specs T dt amb apb dm dp m0 p0 cfgs = Except.ok (tg, Y) →
      ∀ row ∈ Y, ∀ v ∈ row, 0 ≤ v := by
  intro tg Y hok row hrow v hv
  unfold rk4_integrate at hok
  cases hinit : _init_state specs m0 p0 with
  | error e =>
      rw [hinit] at hok
      cases hok
  | ok y0 =>
      rw [hinit] at hok
      simp only [Except.ok.injEq, Prod.mk.injEq] at hok
      obtain ⟨-, hYeq⟩ := hok
      have hy0 : ∀ w ∈ y0, 0 ≤ w := by
        unfold _init_state at hinit
        by_cases hc : m0.length ≠ totalGenes specs ∨ p0.length ≠ totalGenes specs
        · rw [if_pos hc] at hinit
          cases hinit
        · rw [if_neg hc] at hinit
          injection hinit with h2
          rw [← h2]
          exact interleave_nonneg m0 p0 hm hp
      rw [← hYeq] at hrow
      rcases List.mem_cons.mp hrow with rfl | hrow2
      · exact hy0 v hv
      · exact rk4Rows_nonneg specs (_build_protein_index specs) amb apb dm dp cfgs dt
          (stepsOf T dt - 1) 0 y0 row hrow2 v hv

/-- Witness for C5: a one-gene unregulated system over one unit step. -/
theorem rk4_nonneg_witness :
    (∀ v ∈ [(0 : ℝ)], 0 ≤ v) ∧ (∀ v ∈ [(0 : ℝ)], 0 ≤ v)
    ∧ (0 : ℝ) < 1 ∧ (0 : ℝ) < 1
    ∧ (0 : ℝ) ≤ 1 ∧ (0 : ℝ) ≤ 1 ∧ (0 : ℝ) ≤ 0.1 ∧ (0 : ℝ) ≤ 0.01
    ∧ (∀ s ∈ [unregSpec], ∀ r ∈ s.rbs_strengths, 0 ≤ r)
    ∧ (∀ s ∈ [unregSpec], 0 ≤ s.promoter_strength)
    ∧ (∀ tg Y, rk4_integrate [unregSpec] 1 1 1 1 0.1 0.01 [0] [0] [] = Except.ok (tg, Y) →
        ∀ row ∈ Y, ∀ v ∈ row, 0 ≤ v) :=
  ⟨by simp, by simp, by norm_num, by norm_num, by norm_num, by norm_num, by norm_num,
   by norm_num, by norm_num [unregSpec], by norm_num [unregSpec],
   rk4_nonneg [unregSpec] 1 1 1 1 0.1 0.01 [0] [0] [] (by simp) (by simp)
     (by norm_num) (by norm_num) (by norm_num) (by norm_num) (by norm_num) (by norm_num)
     (by norm_num [unregSpec]) (by norm_num [unregSpec])⟩

/-! ### C8: reaction selection by cumulative-sum search -/

theorem cumsumFrom_length (acc : ℝ) (xs : List ℝ) :
    (cumsumFrom acc xs).length = xs.length := by
  induction xs generalizing acc with
  | nil => rfl
  | cons x xs ih => simp [cumsumFrom, ih]

theorem cumsum_length (xs : List ℝ) : (cumsum xs).length = xs.length :=
  cumsumFrom_length 0 xs

theorem ssl_le_length (xs : List ℝ) (t : ℝ) : searchsortedLeft xs t ≤ xs.length := by
  induction xs with
  | nil => simp [searchsortedLeft]
  | cons x xs ih =>
      unfold searchsortedLeft
      by_cases h : x < t
      · rw [if_pos h]
        simp only [List.length_cons]
        omega
      · rw [if_neg h]
        simp

theorem ssl_lt_target (xs : List ℝ) (t : ℝ) :
    ∀ i < searchsortedLeft xs t, xs.getD i 0 < t := by
  induction xs with
  | nil =>
      intro i hi
      simp [searchsortedLeft] at hi
  | cons x xs ih =>
      intro i hi
      unfold searchsortedLeft at hi
      by_cases h : x < t
      · rw [if_pos h] at hi
        cases i with
        | zero => simpa using h
        | succ j =>
            simp only [List.getD_cons_succ]
            exact ih j (by omega)
      · rw [if_neg h] at hi
        omega

theorem ssl_target_le (xs : List ℝ) (t : ℝ) (h : searchsortedLeft xs t < xs.length) :
    t ≤ xs.getD (searchsortedLeft xs t) 0 := by
  induction xs with
  | nil => simp [searchsortedLeft] at h
  | cons x xs ih =>
      unfold searchsortedLeft at h ⊢
      by_cases hx : x < t
      · rw [if_pos hx] at h ⊢
        simp only [List.getD_cons_succ]
        exact ih (by simpa using h)
      · rw [if_neg hx] at h ⊢
        simpa using not_lt.mp hx

theorem ssl_eq_length (xs : List ℝ) (t : ℝ)
    (h : ∀ i < xs.length, xs.getD i 0 < t) : searchsortedLeft xs t = xs.length := by
  by_contra hne
  have hlt : searchsortedLeft xs t < xs.length :=
    lt_of_le_of_ne (ssl_le_length xs t) hne
  exact absurd (h _ hlt) (not_lt.mpr (ssl_target_le xs t hlt))

/-- C8: for a non-empty propensity array, the selected index is in
range; every running propensity sum before it is below the target
`r2 * a0`; when some running sum reaches the target the selected index
is the smallest such one; and when none does (floating-point overflow
of the target past the total), the last reaction is selected. -/
theorem gillespie_selection_rule (props : List ℝ) (target : ℝ) (hne : props ≠ []) :
    selectReaction props target < props.length
    ∧ (∀ i < selectReaction props target, (cumsum props).getD i 0 < target)
    ∧ ((∃ i, i < props.length ∧ target ≤ (cumsum props).getD i 0) →
        target ≤ (cumsum props).getD (selectReaction props target) 0)
    ∧ ((∀ i < props.length, (cumsum props).getD i 0 < target) →
        selectReaction props target = props.length - 1) := by
  have hlen : (cumsum props).length = props.length := cumsum_length props
  have hpos : 0 < props.length := List.length_pos.mpr hne
  have hle := ssl_le_length (cumsum props) target
  unfold selectReaction
  by_cases hc : props.length ≤ searchsortedLeft (cumsum props) target
  · rw [if_pos hc]
    refine ⟨by omega, ?_, ?_, fun _ => rfl⟩
    · intro i hi
      exact ssl_lt_target (cumsum props) target i (by omega)
    · rintro ⟨i, hilt, hge⟩
      have := ssl_lt_target (cumsum props) target i (by omega)
      linarith
  · rw [if_neg hc]
    push_neg at hc
    refine ⟨by omega, ssl_lt_target (cumsum props) target, fun _ => ?_, ?_⟩
    · exact ssl_target_le (cumsum props) target (by omega)
    · intro hall
      have := ssl_eq_length (cumsum props) target (by rw [hlen]; exact hall)
      omega

/-- Witness for C8 on `props = [1, 2]`, `target = 3/2` (the selected
reaction is index 1, the first whose running sum `3` reaches `3/2`). -/
theorem gillespie_selection_rule_witness :
    ([(1 : ℝ), 2] ≠ [])
    ∧ (selectReaction [(1 : ℝ), 2] (3 / 2) < [(1 : ℝ), 2].length
       ∧ (∀ i < selectReaction [(1 : ℝ), 2] (3 / 2), (cumsum [(1 : ℝ), 2]).getD i 0 < 3 / 2)
       ∧ ((∃ i, i < [(1 : ℝ), 2].length ∧ 3 / 2 ≤ (cumsum [(1 : ℝ), 2]).getD i 0) →
           3 / 2 ≤ (cumsum [(1 : ℝ), 2]).getD (selectReaction [(1 : ℝ), 2] (3 / 2)) 0)
       ∧ ((∀ i < [(1 : ℝ), 2].length, (cumsum [(1 : ℝ), 2]).getD i 0 < 3 / 2) →
           selectReaction [(1 : ℝ), 2] (3 / 2) = [(1 : ℝ), 2].length - 1)) :=
  ⟨by simp, gillespie_selection_rule [1, 2] (3 / 2) (by simp)⟩

/-! ### C7: reaction-free system holds the initial state -/

/-- C7: whenever the total propensity at the first iteration is `≤ 0`,
`gillespie_integrate` fills every grid point with the initial state and
terminates (the result is independent of the remaining fuel). -/
theorem gillespie_reaction_free (specs : List TranscriptSpec) (T dt amb apb dm dp : ℝ)
    (m0 p0 : List ℝ) (draws : ℕ → ℝ × ℝ) (cfgs : List InducerConfig) (fuel : ℕ)
    (y0 : List ℝ) (hT : 0 < T) (hfuel : 1 ≤ fuel)
    (hinit : _init_state specs m0 p0 = Except.ok y0)
    (ha0 : ((gillespiePR (_build_protein_index specs) amb apb dm dp
        (inducerConcsAt cfgs 0) y0 specs 0 0).map Prod.fst).sum ≤ 0) :
    gillespie_integrate specs T dt amb apb dm dp m0 p0 draws cfgs fuel
      = Except.ok (tgridOf T dt, List.replicate (stepsOf T dt) y0) := by
  unfold gillespie_integrate
  rw [hinit]
  dsimp only
  obtain ⟨f, rfl⟩ : ∃ f, fuel = f + 1 := ⟨fuel - 1, by omega⟩
  have hsteps : stepsOf T dt = (stepsOf T dt - 1) + 1 := by
    unfold stepsOf
    omega
  have hloop : gillespieLoop specs (_build_protein_index specs) (slicesOf specs 0)
      amb apb dm dp cfgs draws T dt (stepsOf T dt) (f + 1) 0 0 y0 1
      = List.replicate (stepsOf T dt - 1) y0 := by
    by_cases hc : (0 : ℝ) < T ∧ 1 < stepsOf T dt
    · simp only [gillespieLoop]
      rw [if_pos hc, if_pos ha0]
    · simp only [gillespieLoop]
      rw [if_neg hc]
  rw [hloop]
  have hrep : List.replicate (stepsOf T dt) y0
      = y0 :: List.replicate (stepsOf T dt - 1) y0 := by
    conv_lhs => rw [hsteps]
    rw [List.replicate_succ]
  rw [hrep]

/-- Witness for C7: all rate constants and initial counts zero. -/
theorem gillespie_reaction_free_witness :
    (0 : ℝ) < 1 ∧ 1 ≤ 1
    ∧ _init_state [unregSpec] [0] [0] = Except.ok [0, 0]
    ∧ ((gillespiePR (_build_protein_index [unregSpec]) 0 0 0 0
          (inducerConcsAt [] 0) [0, 0] [unregSpec] 0 0).map Prod.fst).sum ≤ 0
    ∧ gillespie_integrate [unregSpec] 1 1 0 0 0 0 [0] [0] (fun _ => (0.5, 0.5)) [] 1
        = Except.ok (tgridOf 1 1, List.replicate (stepsOf 1 1) [0, 0]) := by
  have ha0 : ((gillespiePR (_build_protein_index [unregSpec]) 0 0 0 0
      (inducerConcsAt [] 0) [0, 0] [unregSpec] 0 0).map Prod.fst).sum ≤ 0 := by
    norm_num [gillespiePR, geneReactions, transcriptionRate, truthy, unregSpec,
      inducerConcsAt, List.range_succ, List.range_zero]
  exact ⟨by norm_num, le_refl 1, rfl, ha0,
    gillespie_reaction_free [unregSpec] 1 1 0 0 0 0 [0] [0] (fun _ => (0.5, 0.5)) [] 1
      [0, 0] (by norm_num) (le_refl 1) rfl ha0⟩

/-! ### C1: final-state-only variant vs sampled variant -/

/-- A one-cistron transcript driven by an inducible promoter. -/
def indSpec : TranscriptSpec :=
  { unregSpec with inducer_name := some "aTc", indK := 1, indN := 1 }

/-- A constant inducer configuration for `"aTc"` held at `0`. -/
def cfgC1 : InducerConfig :=
  ⟨"aTc", "constant", 0, 0, 1, 100, 0.5, 0.01, 0⟩

theorem inducerConcsAt_cfgC1 : inducerConcsAt [cfgC1] 0 = [("aTc", 0)] := by
  unfold inducerConcsAt compute_inducer_concentration cfgC1
  norm_num

/-- C1 counterexample: at the same state `[0, 0]` and time `0`, with
the constant inducer `"aTc"` held at `0`, the sampled variant's
propensity/reaction list differs from the final-state variant's: the
sampled transcription propensity carries the inducer Hill factor
(`leak`-level, here `0`) while `gillespie_final_state` computes no
inducer factor at all (propensity `1`). -/
theorem gillespie_variants_counterexample :
    gillespiePR (_build_protein_index [indSpec]) 1 1 0.1 0.01
        (inducerConcsAt [cfgC1] 0) [0, 0] [indSpec] 0 0
      ≠ gillespieFinalPR (_build_protein_index [indSpec]) 1 1 0.1 0.01 [0, 0] [indSpec] 0 0 := by
  have hdget : dget [("aTc", (0 : ℝ))] "aTc" = 0 := rfl
  have hhill : hill_activation 0 1 1 0 = 0 :=
    hill_activation_at_zero 1 1 0 (by norm_num) (by norm_num)
  have eI : indSpec.inducer_name = some "aTc" := rfl
  have eA : indSpec.activator_name = none := rfl
  have eR : indSpec.inhibitor_name = none := rfl
  have eL : indSpec.leak = 0 := rfl
  have eiK : indSpec.indK = 1 := rfl
  have eiN : indSpec.indN = 1 := rfl
  have eP : indSpec.promoter_strength = 1 := rfl
  have hrate : transcriptionRate (_build_protein_index [indSpec]) 1
      (inducerConcsAt [cfgC1] 0) [0, 0] indSpec = 0 := by
    unfold transcriptionRate
    rw [inducerConcsAt_cfgC1, eI, eA, eR, eL, eiK, eiN, eP]
    simp [truthy, hdget, hhill]
  have hratef : transcriptionRateFinal (_build_protein_index [indSpec]) 1 [0, 0] indSpec
      = 1 := by
    unfold transcriptionRateFinal
    rw [eA, eR, eP]
    simp [truthy]
  intro h
  have hhead := congrArg (fun l => (l.map Prod.fst).getD 0 0) h
  simp only [gillespiePR, gillespieFinalPR, geneReactions, hrate, hratef,
    List.range_succ, List.range_zero, List.nil_append, List.map_cons, List.map_nil,
    List.flatten, List.append_nil, List.getD_cons_zero] at hhead
  norm_num at hhead

theorem gillespieFinalPR_eq_sampled_empty_ind (pidx : String → Option (List ℕ))
    (amb apb dm dp : ℝ) (y : List ℝ) :
    ∀ (specs : List TranscriptSpec) (txi o : ℕ),
      gillespieFinalPR pidx amb apb dm dp y specs txi o
        = gillespiePR pidx amb apb dm dp [] y specs txi o := by
  intro specs
  induction specs with
  | nil => intro txi o; rfl
  | cons s rest ih =>
      intro txi o
      simp only [gillespieFinalPR, gillespiePR, ih]
      congr 1
      unfold transcriptionRate transcriptionRateFinal
      simp

/-- C1 amended: the two Gillespie variants share the activator and
repressor Hill factors, the reaction set, the cumulative-sum selection
rule (`selectReaction`) and the state updates (`applyReaction`), but
the final-state variant computes no inducer factor; its per-iteration
propensity/reaction list equals the sampled variant's evaluated with an
empty inducer-concentration mapping, and then the same draws select and
apply the same state update. -/
theorem gillespie_final_state_refines_sampled (pidx : String → Option (List ℕ))
    (amb apb dm dp : ℝ) (y : List ℝ) (specs : List TranscriptSpec) (txi o : ℕ)
    (slices : List (ℕ × ℕ)) (target : ℝ) (d : String × ℕ × ℕ) :
    gillespieFinalPR pidx amb apb dm dp y specs txi o
      = gillespiePR pidx amb apb dm dp [] y specs txi o
    ∧ applyReaction slices y
        (((gillespieFinalPR pidx amb apb dm dp y specs txi o).map Prod.snd).getD
          (selectReaction
            ((gillespieFinalPR pidx amb apb dm dp y specs txi o).map Prod.fst) target) d)
      = applyReaction slices y
        (((gillespiePR pidx amb apb dm dp [] y specs txi o).map Prod.snd).getD
          (selectReaction
            ((gillespiePR pidx amb apb dm dp [] y specs txi o).map Prod.fst) target) d) := by
  have hPR := gillespieFinalPR_eq_sampled_empty_ind pidx amb apb dm dp y specs txi o
  exact ⟨hPR, by rw [hPR]⟩

end Genesim
